/-
Verification of the RTIC code generator (`macros/src/codegen/pre_init.rs` and
`macros/src/codegen/util.rs`) against its natural-language specification.

The generator emits a list of Rust statements that run before `#[init]`.  We
shallowly embed the generator: the emitted statements become a deep `Stmt`
datatype (each constructor records exactly the parameters the quoted Rust
statement mentions), and `codegen` below mirrors, push by push, the statement
pushes of `pre_init::codegen`.  Pure helpers of `util.rs` are translated to
Lean functions; the process-wide atomic counter becomes explicit state
passing.
-/
import Mathlib

set_option maxRecDepth 4096

namespace RTIC

/-! ### Data model (from `rtic_syntax::ast` as used by the generator)

Only the fields the generator reads are modelled: a software task's capacity
(`task.args.capacity`), a hardware task's binding and priority
(`task.args.binds`, `task.args.priority`), a timer queue's priority
(`tq.priority`), the analysis' free-queue task names, dispatcher interrupt
map and timer-queue list, and whether the app has an `#[idle]` task. -/

structure SoftwareTask where
  capacity : Nat
deriving DecidableEq

structure HardwareTask where
  binds : String
  priority : Nat
deriving DecidableEq

structure TimerQueue where
  priority : Nat
deriving DecidableEq

structure App where
  software_tasks : List (String × SoftwareTask)
  hardware_tasks : List HardwareTask
  idles : List String
deriving DecidableEq

structure Analysis where
  free_queues : List String
  interrupts : List (Nat × String)
  timer_queues : List TimerQueue
deriving DecidableEq

/-! ### Helpers from `util.rs` -/

/-- Translation of `util::fq_ident`: identifier for the free queue, `format!("{}_FQ", task)`. -/
def fq_ident (task : String) : String := task ++ "_FQ"

/-- Translation of `util::is_exception`: whether `name` is an exception
with configurable priority. -/
def is_exception (name : String) : Bool :=
  match name with
  | "MemoryManagement" | "BusFault" | "UsageFault" | "SecureFault" | "SVCall"
  | "DebugMonitor" | "PendSV" | "SysTick" => true
  | _ => false

/-- The eight configurable core-exception names matched by `is_exception`. -/
def exceptionNames : List String :=
  ["MemoryManagement", "BusFault", "UsageFault", "SecureFault", "SVCall",
   "DebugMonitor", "PendSV", "SysTick"]

/-! ### The emitted statements

One constructor per distinct statement shape pushed by `pre_init::codegen`.
The device's `NVIC_PRIO_BITS` is a symbol in the emitted code (its value is
only known when the user compiles the generated program), so `prioAssert`
records just the priority; the build-time meaning of the assertion is
modelled by `prioAssertBuilds` below, parameterised by the bit width. -/

inductive Stmt where
  /-- Statement `rtic::export::interrupt::disable();` -/
  | interruptDisable : Stmt
  /-- Statement `(0..cap).for_each(|i| FQ.enqueue_unchecked(i));` -/
  | fillFreeQueue (fq : String) (cap : Nat) : Stmt
  /-- Statement `let mut core: rtic::export::Peripherals = ...steal().into();` -/
  | stealPeripherals : Stmt
  /-- Statement `let _ = [(); ((1 << NVIC_PRIO_BITS) - priority as usize)];` -/
  | prioAssert (priority : Nat) : Stmt
  /-- Statement `core.NVIC.set_priority(Interrupt::name, logical2hw(priority, ...));` -/
  | nvicSetPriority (interrupt : String) (priority : Nat) : Stmt
  /-- Statement `rtic::export::NVIC::unmask(Interrupt::name);` -/
  | nvicUnmask (interrupt : String) : Stmt
  /-- Statement `core.SCB.set_priority(SystemHandler::name, logical2hw(priority, ...));` -/
  | scbSetPriority (handler : String) (priority : Nat) : Stmt
  /-- Statements `core.SYST.set_clock_source(Core); core.SYST.enable_counter(); core.DCB.enable_trace();` -/
  | systickConfig : Stmt
  /-- Statement `core.SCB.scr.modify(|r| r | 1 << 1);` (SLEEPONEXIT) -/
  | sleepOnExit : Stmt
deriving DecidableEq

/-- Build-time meaning of the emitted assertion
`let _ = [(); ((1 << NVIC_PRIO_BITS) - priority as usize)];`.
Rust const-evaluates the array length; `usize` subtraction underflows (a
compile error) exactly when `priority > 1 << bits`, and any length
`≥ 0` (including `0`) is a legal array size.  So the statement compiles
iff `priority ≤ 1 <<< bits`. -/
def prioAssertBuilds (bits priority : Nat) : Bool := priority ≤ 1 <<< bits

/-- The sequence of indices enqueued by
`(0..cap).for_each(|i| FQ.enqueue_unchecked(i))`: `0, 1, ..., cap-1` in
that order. -/
def fillSequence (cap : Nat) : List Nat := List.range cap

/-- The `(priority, name)` pairs the NVIC pass iterates:
`analysis.interrupts.iter().chain(...)` — the dispatcher interrupts chained
with the hardware tasks whose binding is not an exception. -/
def nvicPairs (app : App) (analysis : Analysis) : List (Nat × String) :=
  analysis.interrupts
  ++ app.hardware_tasks.filterMap (fun task =>
      if is_exception task.binds then none
      else some (task.priority, task.binds))

/-- The `(name, priority)` pairs of the exception pass: the hardware tasks
whose binding is an exception. -/
def excPairs (app : App) : List (String × Nat) :=
  app.hardware_tasks.filterMap (fun task =>
    if is_exception task.binds then some (task.binds, task.priority)
    else none)

/-- The free-queue population statements: one
`(0..cap).for_each(|i| FQ.enqueue_unchecked(i))` per analysed free queue,
the capacity looked up in the app's software tasks. -/
def fillStmts (app : App) (analysis : Analysis) : List Stmt :=
  analysis.free_queues.map (fun name =>
    Stmt.fillFreeQueue (fq_ident name)
      (((app.software_tasks.lookup name).map SoftwareTask.capacity).getD 0))

/-- The NVIC pass: per `(priority, name)` pair, the compile-time priority
assertion, then `NVIC.set_priority`, then — after setting the priority,
because changing the priority of a pended interrupt is implementation
defined — `NVIC::unmask`. -/
def nvicStmts (app : App) (analysis : Analysis) : List Stmt :=
  (nvicPairs app analysis).flatMap (fun pn =>
    [Stmt.prioAssert pn.1, Stmt.nvicSetPriority pn.2 pn.1,
     Stmt.nvicUnmask pn.2])

/-- The exception pass: per exception-bound task, the compile-time priority
assertion then `SCB.set_priority`. -/
def excStmts (app : App) : List Stmt :=
  (excPairs app).flatMap (fun np =>
    [Stmt.prioAssert np.2, Stmt.scbSetPriority np.1 np.2])

/-- The SysTick initialisation, emitted only when a timer queue exists
(`analysis.timer_queues.first()`): the compile-time priority assertion,
`SCB.set_priority(SysTick, ...)`, then clock-source selection and counter
start. -/
def timerStmts (analysis : Analysis) : List Stmt :=
  match analysis.timer_queues.head? with
  | some tq =>
    [Stmt.prioAssert tq.priority,
     Stmt.scbSetPriority "SysTick" tq.priority,
     Stmt.systickConfig]
  | none => []

/-- The sleep-on-exit configuration, emitted only when the app has no
`#[idle]` task. -/
def idleStmts (app : App) : List Stmt :=
  if app.idles.isEmpty then [Stmt.sleepOnExit] else []

/-- Translation of `pre_init::codegen`, statement push by statement push. -/
def codegen (app : App) (analysis : Analysis) : List Stmt :=
  -- disable interrupts -- `init` must run with interrupts disabled
  [Stmt.interruptDisable]
  -- populate the FreeQueue
  ++ fillStmts app analysis
  -- steal the core peripherals
  ++ [Stmt.stealPeripherals]
  -- unmask interrupts and set their priorities (dispatchers chained with
  -- the hardware tasks that are not exceptions)
  ++ nvicStmts app analysis
  -- set exception priorities
  ++ excStmts app
  -- initialize the SysTick if there exist a TimerQueue
  ++ timerStmts analysis
  -- if there is no user `#[idle]` then optimize returning from handlers
  ++ idleStmts app

/-! ### `util.rs`: capacity encoding, link sections, mutex impl -/

/-- Decimal rendering of a natural number, the meaning of Rust's
`format!("{}", n)` (and of the `{}` hole in `format!("U{}", n)` /
`format!(".uninit.rtic{}", n)`): most-significant digit first, no leading
zeros, `"0"` for zero.  Built on Mathlib's `Nat.digits 10` (least
significant first) so injectivity is provable. -/
def natToString (n : Nat) : String :=
  if n = 0 then "0"
  else String.mk (((Nat.digits 10 n).map Nat.digitChar).reverse)

/-- Model of `u8::checked_next_power_of_two`: the smallest power of two
greater than or equal to `n` (`1` for `n = 0`), or `none` when that power
does not fit in a `u8` — the powers of two representable in a `u8` are
exactly `1, 2, 4, ..., 128`, scanned in increasing order. -/
def checkedNextPowerOfTwoU8 (n : Nat) : Option Nat :=
  [1, 2, 4, 8, 16, 32, 64, 128].find? (fun p => decide (n ≤ p))

/-- Translation of `util::capacity_typenum`: turns `capacity` into a
type-level (`typenum`)
integer `rtic::export::consts::U{c}`.  The `.expect("UNREACHABLE")` panic on
`checked_next_power_of_two` overflow is modelled as `none`; a `some` result
carries the emitted identifier. -/
def capacity_typenum (capacity : Nat) (round_up_to_power_of_two : Bool) :
    Option String :=
  (if round_up_to_power_of_two then checkedNextPowerOfTwoU8 capacity
   else some capacity).map (fun c => "U" ++ natToString c)

/-- Translation of `util::link_section_index`:
`INDEX.fetch_add(1, Ordering::Relaxed)` on a
process-wide `AtomicUsize`.  The atomic becomes explicit state: the call
returns the old counter value and the new counter state. -/
def link_section_index (s : Nat) : Nat × Nat := (s, s + 1)

/-- Translation of `util::link_section_uninit`: both branches of the
`empty_expr` conditional format `".uninit.rtic{index}"` from a fresh
counter value; returns the emitted `#[link_section = ...]` section name and
the new counter state. -/
def link_section_uninit (empty_expr : Bool) (s : Nat) : Option String × Nat :=
  if empty_expr then
    let r := link_section_index s
    (some (".uninit.rtic" ++ natToString r.1), r.2)
  else
    let r := link_section_index s
    (some (".uninit.rtic" ++ natToString r.1), r.2)

/-- The list of values returned by `n` successive calls to
`link_section_index`, starting from counter state `s` (first component),
together with the final counter state (second component). -/
def runCalls (s : Nat) : Nat → List Nat × Nat
  | 0 => ([], s)
  | n + 1 =>
    let r := runCalls s n
    let c := link_section_index r.2
    (r.1 ++ [c.1], c.2)

/-- The `Mutex` implementation emitted by `util::impl_mutex`, reduced to the
fields the emitted tokens determine: the impl target path, the resource
type, the value of the embedded `const CEILING: u8`, and the five arguments
the emitted `lock` body passes to `rtic::export::lock`. -/
structure MutexImpl where
  path : String
  ty : String
  constCEILING : Nat
  lockArgPtr : String
  lockArgPriority : String
  lockArgCeiling : String
  lockArgPrioBits : String
  lockArgClosure : String
deriving DecidableEq

/-- Translation of `util::impl_mutex`, mirroring the source: the
`(path, priority)` pair is
chosen by `resources_prefix`, `const CEILING: u8 = #ceiling` is embedded,
and the `lock` body forwards `(#ptr, #priority, CEILING,
#device::NVIC_PRIO_BITS, f)` to `rtic::export::lock`. -/
def impl_mutex (device : String) ( resources_prefix : Bool) (name : String)
    (ty : String) (ceiling : Nat) (ptr : String) : MutexImpl :=
  let pp : String × String :=
    if resources_prefix then ("resources::" ++ name, "self.priority()")
    else (name, "self.priority")
  { path := pp.1
    ty := ty
    constCEILING := ceiling
    lockArgPtr := ptr
    lockArgPriority := pp.2
    lockArgCeiling := "CEILING"
    lockArgPrioBits := device ++ "::NVIC_PRIO_BITS"
    lockArgClosure := "f" }

/-- All priorities for which `codegen` emits a compile-time assertion:
dispatcher interrupts, hardware tasks (exception-bound or not), and the
timer-queue handler. -/
def configuredPriorities (app : App) (analysis : Analysis) : List Nat :=
  analysis.interrupts.map Prod.fst
  ++ app.hardware_tasks.map HardwareTask.priority
  ++ (analysis.timer_queues.head?.map TimerQueue.priority).toList

/-! ### Helper lemmas -/

/-- Association-list lookup finds a member when the keys are distinct. -/
theorem lookup_eq_of_mem :
    ∀ (l : List (String × SoftwareTask)) (name : String) (t : SoftwareTask),
      (l.map Prod.fst).Nodup → (name, t) ∈ l → l.lookup name = some t := by
  intro l
  induction l with
  | nil => intro name t _ hmem; simp at hmem
  | cons hd tl ih =>
    intro name t hnodup hmem
    rw [List.map_cons, List.nodup_cons] at hnodup
    rcases List.mem_cons.mp hmem with heq | htl
    · rw [← heq]
      simp [List.lookup]
    · have hne : (name == hd.1) = false := by
        refine beq_eq_false_iff_ne.mpr ?_
        intro hcontra
        exact hnodup.1 (hcontra ▸ List.mem_map.mpr ⟨(name, t), htl, rfl⟩)
      obtain ⟨k, v⟩ := hd
      simp only [List.lookup, hne]
      exact ih name t hnodup.2 htl

/-- The predicate `is_exception` recognises exactly the eight configurable
exceptions. -/
theorem is_exception_iff (n : String) :
    is_exception n = true ↔ n ∈ exceptionNames := by
  unfold is_exception exceptionNames
  constructor
  · intro h
    split at h <;> simp_all
  · intro h
    fin_cases h <;> rfl

/-- If an occurrence of `x` splits `l1 ++ l2` and `x` is not in `l2`, the
occurrence lies in `l1`. -/
theorem split_in_left {α : Type} {l1 l2 pre post : List α} {x : α}
    (h : l1 ++ l2 = pre ++ x :: post) (hx : x ∉ l2) :
    ∃ post2, l1 = pre ++ x :: post2 := by
  induction l1 generalizing pre with
  | nil =>
    exfalso
    apply hx
    rw [List.nil_append] at h
    rw [h]
    exact List.mem_append_right pre (List.mem_cons_self x post)
  | cons a t ih =>
    cases pre with
    | nil =>
      simp only [List.cons_append, List.nil_append, List.cons.injEq] at h
      exact ⟨t, by rw [h.1]; simp⟩
    | cons b pre2 =>
      simp only [List.cons_append, List.cons.injEq] at h
      obtain ⟨post2, hp⟩ := ih h.2
      exact ⟨post2, by rw [h.1, hp]; simp⟩

/-- If an occurrence of `x` splits `l1 ++ l2` and `x` is not in `l1`, the
occurrence lies in `l2`, and the prefix decomposes accordingly. -/
theorem split_in_right {α : Type} {l1 l2 pre post : List α} {x : α}
    (h : l1 ++ l2 = pre ++ x :: post) (hx : x ∉ l1) :
    ∃ pre2, pre = l1 ++ pre2 ∧ l2 = pre2 ++ x :: post := by
  induction l1 generalizing pre with
  | nil => exact ⟨pre, rfl, h⟩
  | cons a t ih =>
    cases pre with
    | nil =>
      simp only [List.cons_append, List.nil_append, List.cons.injEq] at h
      exact absurd (by rw [← h.1]; exact List.mem_cons_self a t) hx
    | cons b pre2 =>
      simp only [List.cons_append, List.cons.injEq] at h
      obtain ⟨pre3, h3, h4⟩ :=
        ih h.2 (fun hmem => hx (List.mem_cons_of_mem a hmem))
      refine ⟨pre3, ?_, h4⟩
      rw [← h.1, h3]
      simp

/-- Every NVIC unmask in `stmts` is strictly preceded by an NVIC
set-priority statement for the same interrupt. -/
def unmaskPrecededBySet (stmts : List Stmt) : Prop :=
  ∀ (pre post : List Stmt) (name : String),
    stmts = pre ++ Stmt.nvicUnmask name :: post →
    ∃ p, Stmt.nvicSetPriority name p ∈ pre

/-- Within the NVIC pass each emitted triple places the set-priority
statement strictly before the unmask for the same interrupt. -/
theorem unmaskPreceded_nvicChunk : ∀ (l : List (Nat × String)),
    unmaskPrecededBySet (l.flatMap (fun pn =>
      [Stmt.prioAssert pn.1, Stmt.nvicSetPriority pn.2 pn.1,
       Stmt.nvicUnmask pn.2])) := by
  intro l
  induction l with
  | nil => intro pre post name heq; cases pre <;> simp at heq
  | cons pn t ih =>
    intro pre post name heq
    rw [List.flatMap_cons] at heq
    cases pre with
    | nil => simp at heq
    | cons a pre1 =>
      cases pre1 with
      | nil => simp at heq
      | cons b pre2 =>
        simp only [List.cons_append, List.nil_append, List.cons.injEq] at heq
        obtain ⟨ha, hb, heq⟩ := heq
        cases pre2 with
        | nil =>
          simp only [List.nil_append, List.cons.injEq,
            Stmt.nvicUnmask.injEq] at heq
          obtain ⟨hname, _⟩ := heq
          refine ⟨pn.1, ?_⟩
          simp only [List.mem_cons, List.not_mem_nil, or_false]
          exact Or.inr (by rw [← hb, hname])
        | cons c pre3 =>
          simp only [List.cons_append, List.cons.injEq] at heq
          obtain ⟨p, hp⟩ := ih pre3 post name heq.2
          exact ⟨p, by simp [hp]⟩

/-- No statement of the fill / steal / exception / timer / sleep chunks is
an NVIC unmask; collected for reuse. -/
theorem unmask_not_mem_sides (app : App) (analysis : Analysis) (n : String) :
    (Stmt.nvicUnmask n ∉ ([Stmt.interruptDisable]
      ++ fillStmts app analysis ++ [Stmt.stealPeripherals])) ∧
    (Stmt.nvicUnmask n ∉
      (excStmts app ++ timerStmts analysis ++ idleStmts app)) := by
  constructor
  · intro hmem
    simp [fillStmts, List.mem_append, List.mem_map] at hmem
  · intro hmem
    simp only [excStmts, List.mem_append, List.mem_flatMap] at hmem
    rcases hmem with (⟨np, _, hin⟩ | htq) | hif
    · simp at hin
    · unfold timerStmts at htq
      cases h2 : analysis.timer_queues.head? with
      | none => rw [h2] at htq; simp at htq
      | some tq => rw [h2] at htq; simp at htq
    · unfold idleStmts at hif
      cases h2 : app.idles.isEmpty <;> rw [h2] at hif <;> simp at hif

/-! ### Example applications, used to instantiate theorems on concrete
input -/

/-- A minimal application: one hardware task bound to interrupt `UART0` at
priority 16, nothing else. -/
def exApp : App :=
  { software_tasks := []
    hardware_tasks := [{ binds := "UART0", priority := 16 }]
    idles := [] }

/-- Analysis for `exApp`: no dispatchers, no free queues, no timer queue. -/
def exAnalysis : Analysis :=
  { free_queues := [], interrupts := [], timer_queues := [] }

/-- A richer application: one software task `foo` of capacity 3, hardware
tasks on `UART0` (priority 2) and the `PendSV` exception (priority 3), no
idle task. -/
def demoApp : App :=
  { software_tasks := [("foo", { capacity := 3 })]
    hardware_tasks :=
      [{ binds := "UART0", priority := 2 }, { binds := "PendSV", priority := 3 }]
    idles := [] }

/-- Analysis for `demoApp`: free queue for `foo`, one dispatcher at
priority 1 on `EXTI0`, one timer queue at priority 4. -/
def demoAnalysis : Analysis :=
  { free_queues := ["foo"]
    interrupts := [(1, "EXTI0")]
    timer_queues := [{ priority := 4 }] }

/-! ### C1: the compile-time priority assertion -/

/-- C1 counterexample: with `NVIC_PRIO_BITS = 4`, a task priority of 16
does NOT fail the build.  `codegen` emits the assertion
`let _ = [(); ((1 << 4) - 16)]` for it, whose array length const-evaluates
to `0` — a legal array size — even though `16 < 2 ^ 4` is false.  So the
emitted assertion does not fail the build whenever `¬ (p < 2 ^
NVIC_PRIO_BITS)`, refuting the claim at priority 16. -/
theorem priority_16_assert_builds :
    Stmt.prioAssert 16 ∈ codegen exApp exAnalysis ∧
      prioAssertBuilds 4 16 = true ∧ ¬ (16 < 2 ^ 4) := by decide

/-- C1 (amended): for every configured priority `p` (dispatcher interrupt,
hardware task, configurable core exception, or timer-queue handler) the
generated boot code contains the compile-time assertion for `p`, and that
assertion fails the build exactly when `p > 2 ^ NVIC_PRIO_BITS` (logical
priorities are 1-based, so `2 ^ NVIC_PRIO_BITS` itself is accepted; with
`NVIC_PRIO_BITS = 4`, priority 17 fails the build while 16 builds). -/
theorem prio_assert_emitted_and_bounds (app : App) (analysis : Analysis)
    (p : Nat) (hp : p ∈ configuredPriorities app analysis) :
    Stmt.prioAssert p ∈ codegen app analysis ∧
      ∀ bits : Nat, prioAssertBuilds bits p = false ↔ 2 ^ bits < p := by
  constructor
  · simp only [configuredPriorities, List.mem_append] at hp
    simp only [codegen, List.mem_append]
    rcases hp with (hint | htask) | htq
    · -- a dispatcher interrupt priority
      obtain ⟨pn, hpn, hfst⟩ := List.mem_map.mp hint
      refine Or.inl (Or.inl (Or.inl (Or.inr ?_)))
      refine List.mem_flatMap.mpr ⟨pn, List.mem_append_left _ hpn, ?_⟩
      rw [hfst]
      exact List.mem_cons_self _ _
    · -- a hardware task priority, exception-bound or not
      obtain ⟨task, htask, hpri⟩ := List.mem_map.mp htask
      by_cases hexc : is_exception task.binds
      · refine Or.inl (Or.inl (Or.inr ?_))
        refine List.mem_flatMap.mpr ⟨(task.binds, task.priority), ?_, ?_⟩
        · exact List.mem_filterMap.mpr ⟨task, htask, by simp [hexc]⟩
        · rw [← hpri]
          exact List.mem_cons_self _ _
      · refine Or.inl (Or.inl (Or.inl (Or.inr ?_)))
        refine List.mem_flatMap.mpr
          ⟨(task.priority, task.binds), List.mem_append_right _ ?_, ?_⟩
        · exact List.mem_filterMap.mpr ⟨task, htask, by simp [hexc]⟩
        · rw [← hpri]
          exact List.mem_cons_self _ _
    · -- the timer-queue handler priority
      obtain ⟨tq, htq2, hpri⟩ := Option.mem_map.mp (Option.mem_toList.mp htq)
      refine Or.inl (Or.inr ?_)
      unfold timerStmts
      rw [Option.mem_def.mp htq2, ← hpri]
      exact List.mem_cons_self _ _
  · intro bits
    rw [prioAssertBuilds, Nat.one_shiftLeft]
    simp [Nat.lt_iff_add_one_le]

/-- Witness for the amended C1 at concrete input: in `demoApp`, priority 2
of the `UART0` hardware task is configured, its assertion is emitted, and
with 4 priority bits the assertion at priority 17 would fail while 2
builds. -/
theorem prio_assert_emitted_and_bounds_witness :
    Stmt.prioAssert 2 ∈ codegen demoApp demoAnalysis ∧
      ∀ bits : Nat, prioAssertBuilds bits 2 = false ↔ 2 ^ bits < 2 :=
  prio_assert_emitted_and_bounds demoApp demoAnalysis 2 (by decide)

/-! ### C2: priority programmed strictly before unmask -/

/-- C2: in the generated boot statement sequence, wherever an interrupt is
unmasked there is, strictly earlier in the sequence, a statement that
programs that same interrupt's priority into the NVIC; no interrupt is
unmasked before its priority has been set. -/
theorem unmask_preceded_by_set_priority (app : App) (analysis : Analysis) :
    unmaskPrecededBySet (codegen app analysis) := by
  intro pre post name heq
  have hassoc : codegen app analysis =
      ([Stmt.interruptDisable] ++ fillStmts app analysis
        ++ [Stmt.stealPeripherals])
      ++ (nvicStmts app analysis
        ++ (excStmts app ++ timerStmts analysis ++ idleStmts app)) := by
    simp only [codegen, List.append_assoc]
  rw [hassoc] at heq
  obtain ⟨pre2, hpre, hNS⟩ :=
    split_in_right heq ((unmask_not_mem_sides app analysis name).1)
  obtain ⟨post2, hN⟩ :=
    split_in_left hNS ((unmask_not_mem_sides app analysis name).2)
  obtain ⟨p, hp⟩ := unmaskPreceded_nvicChunk (nvicPairs app analysis)
    pre2 post2 name hN
  exact ⟨p, hpre ▸ List.mem_append_right _ hp⟩

/-- Witness for C2 at concrete input: in `demoApp` the unmask of the
dispatcher interrupt `EXTI0` splits the generated sequence, and a
set-priority for `EXTI0` occurs in the prefix. -/
theorem unmask_preceded_by_set_priority_witness :
    ∃ p, Stmt.nvicSetPriority "EXTI0" p ∈
      [Stmt.interruptDisable, Stmt.fillFreeQueue "foo_FQ" 3,
       Stmt.stealPeripherals, Stmt.prioAssert 1,
       Stmt.nvicSetPriority "EXTI0" 1] :=
  unmask_preceded_by_set_priority demoApp demoAnalysis
    [Stmt.interruptDisable, Stmt.fillFreeQueue "foo_FQ" 3,
     Stmt.stealPeripherals, Stmt.prioAssert 1,
     Stmt.nvicSetPriority "EXTI0" 1]
    [Stmt.prioAssert 2, Stmt.nvicSetPriority "UART0" 2,
     Stmt.nvicUnmask "UART0", Stmt.prioAssert 3,
     Stmt.scbSetPriority "PendSV" 3, Stmt.prioAssert 4,
     Stmt.scbSetPriority "SysTick" 4, Stmt.systickConfig,
     Stmt.sleepOnExit]
    "EXTI0" (by decide)

/-! ### C3: the boot-order phases -/

/-- Phase rank of an emitted statement: the step of §4.1 of the spec it
belongs to.  The compile-time assertion `prioAssert` is attached to several
steps, so it is left unranked. -/
def phase : Stmt → Option Nat
  | Stmt.interruptDisable => some 0
  | Stmt.fillFreeQueue _ _ => some 1
  | Stmt.stealPeripherals => some 2
  | Stmt.nvicSetPriority _ _ => some 3
  | Stmt.nvicUnmask _ => some 3
  | Stmt.scbSetPriority _ _ => some 4
  | Stmt.systickConfig => some 5
  | Stmt.sleepOnExit => some 6
  | Stmt.prioAssert _ => none

/-- Phase order between two statements (vacuous when either is unranked). -/
def phaseLe (x y : Stmt) : Prop := ∀ a ∈ phase x, ∀ b ∈ phase y, a ≤ b

/-- All ranked statements of `l` have phase within `[lo, hi]`. -/
def phaseBetween (lo hi : Nat) (l : List Stmt) : Prop :=
  ∀ x ∈ l, ∀ a ∈ phase x, lo ≤ a ∧ a ≤ hi

theorem phaseBetween_append {lo hi : Nat} {l1 l2 : List Stmt}
    (h1 : phaseBetween lo hi l1) (h2 : phaseBetween lo hi l2) :
    phaseBetween lo hi (l1 ++ l2) := by
  intro x hx
  rcases List.mem_append.mp hx with h | h
  · exact h1 x h
  · exact h2 x h

theorem phaseBetween_mono {lo hi lo2 hi2 : Nat} {l : List Stmt}
    (hlo : lo2 ≤ lo) (hhi : hi ≤ hi2) (h : phaseBetween lo hi l) :
    phaseBetween lo2 hi2 l :=
  fun x hx a ha =>
    ⟨le_trans hlo (h x hx a ha).1, le_trans (h x hx a ha).2 hhi⟩

/-- Gluing two phase-ordered segments whose ranges do not overlap. -/
theorem pairwise_phase_append {l1 l2 : List Stmt} {lo1 hi1 lo2 hi2 : Nat}
    (p1 : l1.Pairwise phaseLe) (p2 : l2.Pairwise phaseLe)
    (b1 : phaseBetween lo1 hi1 l1) (b2 : phaseBetween lo2 hi2 l2)
    (hmid : hi1 ≤ lo2) : (l1 ++ l2).Pairwise phaseLe :=
  List.pairwise_append.mpr ⟨p1, p2, fun x hx y hy a ha b hb =>
    le_trans (b1 x hx a ha).2 (le_trans hmid (b2 y hy b hb).1)⟩

/-- A list whose ranked statements all have phase `r` is phase-ordered. -/
theorem pairwise_of_phase_const {r : Nat} {l : List Stmt}
    (h : ∀ x ∈ l, ∀ a ∈ phase x, a = r) : l.Pairwise phaseLe :=
  List.pairwise_of_forall_mem_list (fun x hx y hy a ha b hb =>
    le_of_eq ((h x hx a ha).trans (h y hy b hb).symm))

/-- C3: the generated pre-init statement list follows the required boot
order: the very first statement disables interrupts; the statement phases —
free-queue fills (1), peripheral steal (2), NVIC set-priority and unmask
(3), SCB exception priorities (4), SysTick timer configuration (5),
sleep-on-exit (6) — appear in non-decreasing order throughout; and when
there is no `#[idle]` task the sleep-on-exit configuration is the last
statement. -/
theorem boot_order (app : App) (analysis : Analysis) :
    (codegen app analysis).head? = some Stmt.interruptDisable ∧
    (codegen app analysis).Pairwise phaseLe ∧
    (app.idles.isEmpty = true →
      (codegen app analysis).getLast? = some Stmt.sleepOnExit) := by
  refine ⟨rfl, ?_, ?_⟩
  · -- phase facts for each chunk
    have h7 : ∀ x ∈ idleStmts app, ∀ a ∈ phase x, a = 6 := by
      intro x hx a ha
      unfold idleStmts at hx
      cases h : app.idles.isEmpty <;> rw [h] at hx <;> simp at hx
      subst hx
      simp only [phase, Option.mem_def, Option.some.injEq] at ha
      omega
    have p7 := pairwise_of_phase_const h7
    have b7 : phaseBetween 6 6 (idleStmts app) :=
      fun x hx a ha => by rw [h7 x hx a ha]; omega
    have b6 : phaseBetween 4 5 (timerStmts analysis) := by
      intro x hx a ha
      unfold timerStmts at hx
      cases h : analysis.timer_queues.head? with
      | none => rw [h] at hx; simp at hx
      | some tq =>
        rw [h] at hx
        simp only [List.mem_cons, List.not_mem_nil, or_false] at hx
        rcases hx with rfl | rfl | rfl <;>
          simp only [phase, Option.mem_def, Option.some.injEq,
            reduceCtorEq] at ha <;> omega
    have p6 : (timerStmts analysis).Pairwise phaseLe := by
      unfold timerStmts
      cases h : analysis.timer_queues.head? with
      | none => simp
      | some tq =>
        refine List.Pairwise.cons ?_
          (List.Pairwise.cons ?_ (List.pairwise_singleton _ _))
        · intro y _ a ha
          simp [phase] at ha
        · intro y hy a ha b hb
          simp only [List.mem_singleton] at hy
          subst hy
          simp only [phase, Option.mem_def, Option.some.injEq] at ha hb
          omega
    have h5 : ∀ x ∈ excStmts app, ∀ a ∈ phase x, a = 4 := by
      intro x hx a ha
      obtain ⟨np, _, hmem⟩ := List.mem_flatMap.mp hx
      simp only [List.mem_cons, List.not_mem_nil, or_false] at hmem
      rcases hmem with rfl | rfl <;>
        simp only [phase, Option.mem_def, Option.some.injEq,
          reduceCtorEq] at ha
      omega
    have p5 := pairwise_of_phase_const h5
    have b5 : phaseBetween 4 4 (excStmts app) :=
      fun x hx a ha => by rw [h5 x hx a ha]; omega
    have h4 : ∀ x ∈ nvicStmts app analysis, ∀ a ∈ phase x, a = 3 := by
      intro x hx a ha
      obtain ⟨pn, _, hmem⟩ := List.mem_flatMap.mp hx
      simp only [List.mem_cons, List.not_mem_nil, or_false] at hmem
      rcases hmem with rfl | rfl | rfl <;>
        simp only [phase, Option.mem_def, Option.some.injEq,
          reduceCtorEq] at ha <;> omega
    have p4 := pairwise_of_phase_const h4
    have b4 : phaseBetween 3 3 (nvicStmts app analysis) :=
      fun x hx a ha => by rw [h4 x hx a ha]; omega
    have h3 : ∀ x ∈ [Stmt.stealPeripherals], ∀ a ∈ phase x, a = 2 := by
      intro x hx a ha
      simp only [List.mem_singleton] at hx
      subst hx
      simp only [phase, Option.mem_def, Option.some.injEq] at ha
      omega
    have p3 := pairwise_of_phase_const h3
    have b3 : phaseBetween 2 2 [Stmt.stealPeripherals] :=
      fun x hx a ha => by rw [h3 x hx a ha]; omega
    have h2 : ∀ x ∈ fillStmts app analysis, ∀ a ∈ phase x, a = 1 := by
      intro x hx a ha
      obtain ⟨nm, _, hx2⟩ := List.mem_map.mp hx
      subst hx2
      simp only [phase, Option.mem_def, Option.some.injEq] at ha
      omega
    have p2 := pairwise_of_phase_const h2
    have b2 : phaseBetween 1 1 (fillStmts app analysis) :=
      fun x hx a ha => by rw [h2 x hx a ha]; omega
    have h1 : ∀ x ∈ [Stmt.interruptDisable], ∀ a ∈ phase x, a = 0 := by
      intro x hx a ha
      simp only [List.mem_singleton] at hx
      subst hx
      simp only [phase, Option.mem_def, Option.some.injEq] at ha
      omega
    have p1 := pairwise_of_phase_const h1
    have b1 : phaseBetween 0 0 [Stmt.interruptDisable] :=
      fun x hx a ha => by rw [h1 x hx a ha]; omega
    -- glue, leftmost pair first (`++` is left-associative)
    have P12 : ([Stmt.interruptDisable]
        ++ fillStmts app analysis).Pairwise phaseLe :=
      pairwise_phase_append p1 p2 b1 b2 (by omega)
    have B12 : phaseBetween 0 1 ([Stmt.interruptDisable]
        ++ fillStmts app analysis) :=
      phaseBetween_append (phaseBetween_mono (by omega) (by omega) b1)
        (phaseBetween_mono (by omega) (by omega) b2)
    have P123 : ([Stmt.interruptDisable] ++ fillStmts app analysis
        ++ [Stmt.stealPeripherals]).Pairwise phaseLe :=
      pairwise_phase_append P12 p3 B12 b3 (by omega)
    have B123 : phaseBetween 0 2 ([Stmt.interruptDisable]
        ++ fillStmts app analysis ++ [Stmt.stealPeripherals]) :=
      phaseBetween_append (phaseBetween_mono (by omega) (by omega) B12)
        (phaseBetween_mono (by omega) (by omega) b3)
    have P1234 : ([Stmt.interruptDisable] ++ fillStmts app analysis
        ++ [Stmt.stealPeripherals]
        ++ nvicStmts app analysis).Pairwise phaseLe :=
      pairwise_phase_append P123 p4 B123 b4 (by omega)
    have B1234 : phaseBetween 0 3 ([Stmt.interruptDisable]
        ++ fillStmts app analysis ++ [Stmt.stealPeripherals]
        ++ nvicStmts app analysis) :=
      phaseBetween_append (phaseBetween_mono (by omega) (by omega) B123)
        (phaseBetween_mono (by omega) (by omega) b4)
    have P12345 : ([Stmt.interruptDisable] ++ fillStmts app analysis
        ++ [Stmt.stealPeripherals] ++ nvicStmts app analysis
        ++ excStmts app).Pairwise phaseLe :=
      pairwise_phase_append P1234 p5 B1234 b5 (by omega)
    have B12345 : phaseBetween 0 4 ([Stmt.interruptDisable]
        ++ fillStmts app analysis ++ [Stmt.stealPeripherals]
        ++ nvicStmts app analysis ++ excStmts app) :=
      phaseBetween_append (phaseBetween_mono (by omega) (by omega) B1234)
        (phaseBetween_mono (by omega) (by omega) b5)
    have P123456 : ([Stmt.interruptDisable] ++ fillStmts app analysis
        ++ [Stmt.stealPeripherals] ++ nvicStmts app analysis
        ++ excStmts app ++ timerStmts analysis).Pairwise phaseLe :=
      pairwise_phase_append P12345 p6 B12345 b6 (by omega)
    have B123456 : phaseBetween 0 5 ([Stmt.interruptDisable]
        ++ fillStmts app analysis ++ [Stmt.stealPeripherals]
        ++ nvicStmts app analysis ++ excStmts app ++ timerStmts analysis) :=
      phaseBetween_append (phaseBetween_mono (by omega) (by omega) B12345)
        (phaseBetween_mono (by omega) (by omega) b6)
    exact pairwise_phase_append P123456 p7 B123456 b7 (by omega)
  · intro h
    simp only [codegen, idleStmts, h, if_true, List.getLast?_append,
      List.getLast?_singleton, Option.or]

/-- Witness for C3 at concrete input: `demoApp` has no `#[idle]` task, so
the last generated statement is the sleep-on-exit configuration. -/
theorem boot_order_witness :
    (codegen demoApp demoAnalysis).getLast? = some Stmt.sleepOnExit :=
  (boot_order demoApp demoAnalysis).2.2 (by decide)

/-! ### Membership characterisation of the register-touching statements -/

/-- Any NVIC set-priority statement in the generated code stems from the
NVIC pass, with its `(priority, name)` pair. -/
theorem nvicSet_mem_cases {app : App} {analysis : Analysis} {n : String}
    {p : Nat} (h : Stmt.nvicSetPriority n p ∈ codegen app analysis) :
    (p, n) ∈ nvicPairs app analysis := by
  simp only [codegen, List.mem_append] at h
  rcases h with ((((((h | h) | h) | h) | h) | h) | h)
  · simp at h
  · simp [fillStmts] at h
  · simp at h
  · obtain ⟨pn, hpn, hmem⟩ := List.mem_flatMap.mp h
    simp only [List.mem_cons, List.not_mem_nil, or_false,
      Stmt.nvicSetPriority.injEq, reduceCtorEq, false_or, or_false] at hmem
    obtain ⟨hn, hp⟩ := hmem
    rw [hp, hn]
    simpa using hpn
  · obtain ⟨np, _, hmem⟩ := List.mem_flatMap.mp h
    simp at hmem
  · unfold timerStmts at h
    cases h2 : analysis.timer_queues.head? <;> rw [h2] at h <;> simp at h
  · unfold idleStmts at h
    cases h2 : app.idles.isEmpty <;> rw [h2] at h <;> simp at h

/-- Any NVIC unmask statement in the generated code stems from the NVIC
pass. -/
theorem nvicUnmask_mem_cases {app : App} {analysis : Analysis} {n : String}
    (h : Stmt.nvicUnmask n ∈ codegen app analysis) :
    ∃ p, (p, n) ∈ nvicPairs app analysis := by
  simp only [codegen, List.mem_append] at h
  rcases h with ((((((h | h) | h) | h) | h) | h) | h)
  · simp at h
  · simp [fillStmts] at h
  · simp at h
  · obtain ⟨pn, hpn, hmem⟩ := List.mem_flatMap.mp h
    simp only [List.mem_cons, List.not_mem_nil, or_false,
      Stmt.nvicUnmask.injEq, reduceCtorEq, false_or, or_false] at hmem
    exact ⟨pn.1, by rw [hmem]; simpa using hpn⟩
  · obtain ⟨np, _, hmem⟩ := List.mem_flatMap.mp h
    simp at hmem
  · unfold timerStmts at h
    cases h2 : analysis.timer_queues.head? <;> rw [h2] at h <;> simp at h
  · unfold idleStmts at h
    cases h2 : app.idles.isEmpty <;> rw [h2] at h <;> simp at h

/-- Any SCB set-priority statement stems from the exception pass or from
the SysTick initialisation. -/
theorem scbSet_mem_cases {app : App} {analysis : Analysis} {n : String}
    {p : Nat} (h : Stmt.scbSetPriority n p ∈ codegen app analysis) :
    (n, p) ∈ excPairs app ∨
      ∃ tq, analysis.timer_queues.head? = some tq ∧
        n = "SysTick" ∧ p = tq.priority := by
  simp only [codegen, List.mem_append] at h
  rcases h with ((((((h | h) | h) | h) | h) | h) | h)
  · simp at h
  · simp [fillStmts] at h
  · simp at h
  · obtain ⟨pn, _, hmem⟩ := List.mem_flatMap.mp h
    simp at hmem
  · obtain ⟨np, hnp, hmem⟩ := List.mem_flatMap.mp h
    simp only [List.mem_cons, List.not_mem_nil, or_false,
      Stmt.scbSetPriority.injEq, reduceCtorEq, false_or, or_false] at hmem
    obtain ⟨hn, hp⟩ := hmem
    left
    rw [hn, hp]
    simpa using hnp
  · unfold timerStmts at h
    cases h2 : analysis.timer_queues.head? with
    | none => rw [h2] at h; simp at h
    | some tq =>
      rw [h2] at h
      simp only [List.mem_cons, List.not_mem_nil, or_false,
        Stmt.scbSetPriority.injEq, reduceCtorEq, false_or, or_false] at h
      exact Or.inr ⟨tq, rfl, h.1, h.2⟩
  · unfold idleStmts at h
    cases h2 : app.idles.isEmpty <;> rw [h2] at h <;> simp at h

/-- The SysTick clock/counter configuration appears exactly when a timer
queue exists. -/
theorem systickConfig_mem_iff (app : App) (analysis : Analysis) :
    Stmt.systickConfig ∈ codegen app analysis ↔
      analysis.timer_queues.head?.isSome := by
  constructor
  · intro h
    simp only [codegen, List.mem_append] at h
    rcases h with ((((((h | h) | h) | h) | h) | h) | h)
    · simp at h
    · simp [fillStmts] at h
    · simp at h
    · obtain ⟨pn, _, hmem⟩ := List.mem_flatMap.mp h
      simp at hmem
    · obtain ⟨np, _, hmem⟩ := List.mem_flatMap.mp h
      simp at hmem
    · unfold timerStmts at h
      cases h2 : analysis.timer_queues.head? with
      | none => rw [h2] at h; simp at h
      | some tq => simp
    · unfold idleStmts at h
      cases h2 : app.idles.isEmpty <;> rw [h2] at h <;> simp at h
  · intro h
    obtain ⟨tq, htq⟩ := Option.isSome_iff_exists.mp h
    simp only [codegen, List.mem_append]
    refine Or.inl (Or.inr ?_)
    unfold timerStmts
    rw [htq]
    simp

/-- Membership in `nvicPairs` implies the name is not an exception,
provided the dispatcher interrupts are not exceptions. -/
theorem not_exception_of_mem_nvicPairs {app : App} {analysis : Analysis}
    {p : Nat} {n : String}
    (hdisp : ∀ pn ∈ analysis.interrupts, is_exception pn.2 = false)
    (hmem : (p, n) ∈ nvicPairs app analysis) : is_exception n = false := by
  rcases List.mem_append.mp hmem with h | h
  · exact hdisp (p, n) h
  · obtain ⟨task, _, hf⟩ := List.mem_filterMap.mp h
    by_cases hexc : is_exception task.binds
    · rw [if_pos hexc] at hf
      exact absurd hf (by simp)
    · rw [if_neg hexc] at hf
      obtain ⟨-, hn⟩ := Prod.mk.injEq .. ▸ (Option.some.injEq _ _).mp hf
      rw [← hn]
      exact Bool.not_eq_true _ ▸ hexc

/-! ### C5: exceptions via SCB, everything else via NVIC -/

/-- C5: `is_exception` recognises exactly the eight configurable core
exceptions; a hardware task bound to one of them has its priority
programmed through the SCB exception-priority interface and gets no NVIC
set-priority or unmask statement; a hardware task bound to anything else
is configured and unmasked through the NVIC pass. -/
theorem exception_vs_nvic (app : App) (analysis : Analysis)
    (task : HardwareTask) (htask : task ∈ app.hardware_tasks)
    (hdisp : ∀ pn ∈ analysis.interrupts, is_exception pn.2 = false) :
    (∀ n, is_exception n = true ↔ n ∈ exceptionNames) ∧
    (is_exception task.binds = true →
      Stmt.scbSetPriority task.binds task.priority ∈ codegen app analysis ∧
      (∀ p, Stmt.nvicSetPriority task.binds p ∉ codegen app analysis) ∧
      Stmt.nvicUnmask task.binds ∉ codegen app analysis) ∧
    (is_exception task.binds = false →
      Stmt.nvicSetPriority task.binds task.priority ∈ codegen app analysis ∧
      Stmt.nvicUnmask task.binds ∈ codegen app analysis) := by
  refine ⟨is_exception_iff, fun hexc => ⟨?_, ?_, ?_⟩, fun hexc => ⟨?_, ?_⟩⟩
  · simp only [codegen, List.mem_append]
    refine Or.inl (Or.inl (Or.inr ?_))
    refine List.mem_flatMap.mpr ⟨(task.binds, task.priority), ?_, by simp⟩
    exact List.mem_filterMap.mpr ⟨task, htask, by simp [hexc]⟩
  · intro p hmem
    have hne := not_exception_of_mem_nvicPairs hdisp (nvicSet_mem_cases hmem)
    rw [hexc] at hne
    exact absurd hne (by simp)
  · intro hmem
    obtain ⟨p, hp⟩ := nvicUnmask_mem_cases hmem
    have hne := not_exception_of_mem_nvicPairs hdisp hp
    rw [hexc] at hne
    exact absurd hne (by simp)
  · simp only [codegen, List.mem_append]
    refine Or.inl (Or.inl (Or.inl (Or.inr ?_)))
    refine List.mem_flatMap.mpr
      ⟨(task.priority, task.binds), List.mem_append_right _ ?_, by simp⟩
    exact List.mem_filterMap.mpr ⟨task, htask, by simp [hexc]⟩
  · simp only [codegen, List.mem_append]
    refine Or.inl (Or.inl (Or.inl (Or.inr ?_)))
    refine List.mem_flatMap.mpr
      ⟨(task.priority, task.binds), List.mem_append_right _ ?_, by simp⟩
    exact List.mem_filterMap.mpr ⟨task, htask, by simp [hexc]⟩

/-- Witness for C5 at concrete input: in `demoApp` the `PendSV`-bound task
(priority 3) is configured through the SCB, gets no NVIC statement, while
the `UART0`-bound task (priority 2) is configured and unmasked through the
NVIC. -/
theorem exception_vs_nvic_witness :
    (Stmt.scbSetPriority "PendSV" 3 ∈ codegen demoApp demoAnalysis ∧
      Stmt.nvicUnmask "PendSV" ∉ codegen demoApp demoAnalysis) ∧
    (Stmt.nvicSetPriority "UART0" 2 ∈ codegen demoApp demoAnalysis ∧
      Stmt.nvicUnmask "UART0" ∈ codegen demoApp demoAnalysis) :=
  ⟨⟨((exception_vs_nvic demoApp demoAnalysis
        { binds := "PendSV", priority := 3 } (by decide) (by decide)).2.1
      (by decide)).1,
    ((exception_vs_nvic demoApp demoAnalysis
        { binds := "PendSV", priority := 3 } (by decide) (by decide)).2.1
      (by decide)).2.2⟩,
   (exception_vs_nvic demoApp demoAnalysis
       { binds := "UART0", priority := 2 } (by decide) (by decide)).2.2
     (by decide)⟩

/-! ### C6: SysTick initialisation iff a timer queue exists -/

/-- C6: the SysTick clock-source/counter configuration is emitted iff at
least one timer queue exists; when one exists the generated code also
asserts and programs the timer handler's priority through the SCB; when
none exists no SysTick statement is emitted at all (given no hardware task
binds `SysTick`). -/
theorem systick_iff_timer_queue (app : App) (analysis : Analysis)
    (hbinds : ∀ task ∈ app.hardware_tasks, task.binds ≠ "SysTick") :
    (Stmt.systickConfig ∈ codegen app analysis ↔
      analysis.timer_queues ≠ []) ∧
    (∀ tq, analysis.timer_queues.head? = some tq →
      Stmt.prioAssert tq.priority ∈ codegen app analysis ∧
      Stmt.scbSetPriority "SysTick" tq.priority ∈ codegen app analysis) ∧
    (analysis.timer_queues = [] →
      ∀ p, Stmt.scbSetPriority "SysTick" p ∉ codegen app analysis) := by
  refine ⟨?_, ?_, ?_⟩
  · rw [systickConfig_mem_iff, Option.isSome_iff_ne_none]
    simp [List.head?_eq_none_iff]
  · intro tq htq
    constructor
    · simp only [codegen, List.mem_append]
      refine Or.inl (Or.inr ?_)
      unfold timerStmts
      rw [htq]
      simp
    · simp only [codegen, List.mem_append]
      refine Or.inl (Or.inr ?_)
      unfold timerStmts
      rw [htq]
      simp
  · intro hnil p hmem
    rcases scbSet_mem_cases hmem with hexc | ⟨tq, htq, -, -⟩
    · obtain ⟨task, htask, hf⟩ := List.mem_filterMap.mp hexc
      by_cases hx : is_exception task.binds
      · rw [if_pos hx] at hf
        simp only [Option.some.injEq, Prod.mk.injEq] at hf
        exact hbinds task htask hf.1
      · rw [if_neg hx] at hf
        exact absurd hf (by simp)
    · rw [hnil] at htq
      exact absurd htq (by simp)

/-- Witness for C6 at concrete input: `demoAnalysis` has a timer queue at
priority 4, and the generated code contains its assertion and its SCB
SysTick priority statement. -/
theorem systick_iff_timer_queue_witness :
    Stmt.prioAssert 4 ∈ codegen demoApp demoAnalysis ∧
      Stmt.scbSetPriority "SysTick" 4 ∈ codegen demoApp demoAnalysis :=
  (systick_iff_timer_queue demoApp demoAnalysis (by decide)).2.1
    { priority := 4 } (by decide)

/-! ### C7: the generated Mutex implementation -/

/-- C7: for every resource, the Mutex implementation generated by
`impl_mutex` embeds the given ceiling as the compile-time constant
`const CEILING`, and its `lock` method forwards exactly that constant (by
name), the context's current priority, the device's `NVIC_PRIO_BITS`, the
resource pointer and the closure to `rtic::export::lock`; the ceiling
argument is the embedded constant, never a value computed at lock time. -/
theorem impl_mutex_forwards (device : String) ( resources_prefix : Bool)
    (name ty : String) (ceiling : Nat) (ptr : String) :
    (impl_mutex device resources_prefix name ty ceiling ptr).constCEILING
        = ceiling ∧
    (impl_mutex device resources_prefix name ty ceiling ptr).lockArgCeiling
        = "CEILING" ∧
    (impl_mutex device resources_prefix name ty ceiling ptr).lockArgPtr
        = ptr ∧
    (impl_mutex device resources_prefix name ty ceiling ptr).lockArgPriority
        = (if resources_prefix then "self.priority()" else "self.priority") ∧
    (impl_mutex device resources_prefix name ty ceiling ptr).lockArgPrioBits
        = device ++ "::NVIC_PRIO_BITS" ∧
    (impl_mutex device resources_prefix name ty ceiling ptr).lockArgClosure
        = "f" ∧
    (impl_mutex device resources_prefix name ty ceiling ptr).path
        = (if resources_prefix then "resources::" ++ name else name) := by
  cases resources_prefix <;> simp [impl_mutex]

/-! ### C8 and C10: capacity encoding -/

/-- For every capacity that fits, `checkedNextPowerOfTwoU8` returns a
power of two `p ≥ c` with `p = 1` for `c ≤ 1` and `p < 2c` otherwise
(which pins `p` as the least such power). -/
theorem checkedNextPow2_spec : ∀ c < 129,
    checkedNextPowerOfTwoU8 c
        = some ((checkedNextPowerOfTwoU8 c).getD 0) ∧
    (∃ k, k < 8 ∧ (checkedNextPowerOfTwoU8 c).getD 0 = 2 ^ k) ∧
    c ≤ (checkedNextPowerOfTwoU8 c).getD 0 ∧
    (c ≤ 1 → (checkedNextPowerOfTwoU8 c).getD 0 = 1) ∧
    (2 ≤ c → (checkedNextPowerOfTwoU8 c).getD 0 < 2 * c) := by decide

/-- For capacities above 128 the `u8` next power of two does not exist. -/
theorem checkedNextPow2_none : ∀ c, 129 ≤ c →
    checkedNextPowerOfTwoU8 c = none := by
  intro c hc
  refine List.find?_eq_none.mpr ?_
  intro x hx
  fin_cases hx <;> simp <;> omega

/-- C8: with `round_up_to_power_of_two = false`, `capacity_typenum` emits
the type-level integer of the capacity itself; with `true` (and a capacity
for which the rounding is defined, `c ≤ 128` — the larger `u8` capacities
are claim C10's panic domain) it emits the type-level integer of the
smallest power of two greater than or equal to the capacity. -/
theorem capacity_typenum_rounding (c : Nat) (hc : c ≤ 255) :
    capacity_typenum c false = some ("U" ++ natToString c) ∧
    (c ≤ 128 → ∃ p, checkedNextPowerOfTwoU8 c = some p ∧
      capacity_typenum c true = some ("U" ++ natToString p) ∧
      (∃ k, p = 2 ^ k) ∧ c ≤ p ∧
      ∀ q, (∃ k, q = 2 ^ k) → c ≤ q → p ≤ q) := by
  constructor
  · simp [capacity_typenum]
  · intro h128
    have hspec := checkedNextPow2_spec c (by omega)
    generalize hgd : (checkedNextPowerOfTwoU8 c).getD 0 = p at hspec
    obtain ⟨hsome, ⟨k, hk8, hpow⟩, hle, h1, h2⟩ := hspec
    refine ⟨p, hsome, ?_, ⟨k, hpow⟩, hle, ?_⟩
    · simp [capacity_typenum, hsome]
    · intro q ⟨j, hq⟩ hcq
      by_cases hc1 : c ≤ 1
      · rw [h1 hc1, hq]
        exact Nat.one_le_two_pow
      · have hc2 : 2 ≤ c := by omega
        by_contra hqp
        push_neg at hqp
        rw [hq, hpow] at hqp
        have hjk : j < k := (Nat.pow_lt_pow_iff_right (by omega)).mp hqp
        have hsucc : 2 ^ (j + 1) ≤ 2 ^ k :=
          Nat.pow_le_pow_right (by omega) (by omega)
        have hlt : 2 ^ k < 2 * c := hpow ▸ h2 hc2
        have : 2 ^ j < c := by
          have := lt_of_le_of_lt hsucc hlt
          rw [pow_succ] at this
          omega
        rw [hq] at hcq
        omega

/-- Witness for C8 at concrete input: capacity 5 encodes as `U5` without
rounding and as `U8` (the least power of two `≥ 5`) with rounding. -/
theorem capacity_typenum_rounding_witness :
    capacity_typenum 5 false = some ("U" ++ natToString 5) ∧
    (5 ≤ 128 → ∃ p, checkedNextPowerOfTwoU8 5 = some p ∧
      capacity_typenum 5 true = some ("U" ++ natToString p) ∧
      (∃ k, p = 2 ^ k) ∧ 5 ≤ p ∧
      ∀ q, (∃ k, q = 2 ^ k) → 5 ≤ q → p ≤ q) :=
  capacity_typenum_rounding 5 (by omega)

/-- C10: for every capacity in `129..=255`, `capacity_typenum` with
rounding panics (the `u8` next-power-of-two computation overflows and the
`.expect("UNREACHABLE")` is taken — modelled as `none`), and for every
capacity up to 128 it returns normally. -/
theorem capacity_typenum_overflow (c : Nat) (h1 : 129 ≤ c) (h2 : c ≤ 255) :
    capacity_typenum c true = none ∧
    ∀ c2, c2 ≤ 128 → ∃ s, capacity_typenum c2 true = some s := by
  constructor
  · simp [capacity_typenum, checkedNextPow2_none c h1]
  · intro c2 hc2
    have hspec := checkedNextPow2_spec c2 (by omega)
    generalize hgd : (checkedNextPowerOfTwoU8 c2).getD 0 = p at hspec
    obtain ⟨hsome, -, -, -, -⟩ := hspec
    exact ⟨"U" ++ natToString p, by simp [capacity_typenum, hsome]⟩

/-- Witness for C10 at concrete input: capacity 200 panics with rounding,
while capacity 100 returns normally. -/
theorem capacity_typenum_overflow_witness :
    capacity_typenum 200 true = none ∧
    ∀ c2, c2 ≤ 128 → ∃ s, capacity_typenum c2 true = some s :=
  capacity_typenum_overflow 200 (by omega) (by omega)

/-! ### C9: the link-section counter -/

/-- The map `Nat.digitChar` is injective on decimal digits. -/
theorem digitChar_inj :
    ∀ d < 10, ∀ e < 10, Nat.digitChar d = Nat.digitChar e → d = e := by
  decide

/-- Mapping `Nat.digitChar` over digit lists is injective. -/
theorem map_digitChar_inj :
    ∀ (l1 l2 : List Nat), (∀ d ∈ l1, d < 10) → (∀ d ∈ l2, d < 10) →
      l1.map Nat.digitChar = l2.map Nat.digitChar → l1 = l2 := by
  intro l1
  induction l1 with
  | nil =>
    intro l2 _ _ h
    cases l2 with
    | nil => rfl
    | cons e t2 => simp at h
  | cons d t ih =>
    intro l2 h1 h2 h
    cases l2 with
    | nil => simp at h
    | cons e t2 =>
      simp only [List.map_cons, List.cons.injEq] at h
      have hd : d = e :=
        digitChar_inj d (h1 d (List.mem_cons_self d t)) e
          (h2 e (List.mem_cons_self e t2)) h.1
      have ht : t = t2 :=
        ih t2 (fun x hx => h1 x (List.mem_cons_of_mem d hx))
          (fun x hx => h2 x (List.mem_cons_of_mem e hx)) h.2
      rw [hd, ht]

/-- A nonzero number never renders as `"0"`. -/
theorem natToString_ne_zero {n : Nat} (hn : n ≠ 0) : natToString n ≠ "0" := by
  intro h
  unfold natToString at h
  rw [if_neg hn] at h
  have hdata : ((Nat.digits 10 n).map Nat.digitChar).reverse = ['0'] := by
    have := congrArg String.data h
    simpa using this
  have hmap : (Nat.digits 10 n).map Nat.digitChar = ['0'] := by
    have := congrArg List.reverse hdata
    simpa using this
  have hdig : Nat.digits 10 n = [0] := by
    refine map_digitChar_inj (Nat.digits 10 n) [0] ?_ ?_ ?_
    · intro d hd
      exact Nat.digits_lt_base (by omega) hd
    · intro d hd
      simp only [List.mem_singleton] at hd
      omega
    · rw [hmap]
      rfl
  have : n = 0 := by
    have hof := Nat.ofDigits_digits 10 n
    rw [hdig] at hof
    simpa [Nat.ofDigits] using hof.symm
  exact hn this

/-- Decimal rendering is injective: distinct numbers have distinct
strings. -/
theorem natToString_inj : ∀ m n : Nat, natToString m = natToString n →
    m = n := by
  intro m n h
  by_cases hm : m = 0 <;> by_cases hn : n = 0
  · rw [hm, hn]
  · exfalso
    apply natToString_ne_zero hn
    rw [← h, hm]
    rfl
  · exfalso
    apply natToString_ne_zero hm
    rw [h, hn]
    rfl
  · unfold natToString at h
    rw [if_neg hm, if_neg hn] at h
    have hdata := congrArg String.data h
    simp only [] at hdata
    have hrev : ((Nat.digits 10 m).map Nat.digitChar).reverse
        = ((Nat.digits 10 n).map Nat.digitChar).reverse := hdata
    have hmap : (Nat.digits 10 m).map Nat.digitChar
        = (Nat.digits 10 n).map Nat.digitChar := by
      have := congrArg List.reverse hrev
      simpa using this
    have hdig := map_digitChar_inj (Nat.digits 10 m) (Nat.digits 10 n)
      (fun d hd => Nat.digits_lt_base (by omega) hd)
      (fun d hd => Nat.digits_lt_base (by omega) hd) hmap
    exact Nat.digits_inj_iff.mp hdig

/-- A shared string prefix cancels on the left. -/
theorem string_append_left_cancel {p a b : String} (h : p ++ a = p ++ b) :
    a = b := by
  obtain ⟨la⟩ := a
  obtain ⟨lb⟩ := b
  have hd := congrArg String.data h
  rw [String.data_append, String.data_append] at hd
  exact congrArg String.mk (List.append_cancel_left hd)

/-- The values returned by `n` successive `link_section_index` calls from
state `s` are `s, s+1, ..., s+n-1`, ending in state `s + n`. -/
theorem runCalls_spec (s : Nat) :
    ∀ n, runCalls s n = ((List.range n).map (fun i => s + i), s + n) := by
  intro n
  induction n with
  | zero => simp [runCalls]
  | succ k ih =>
    simp only [runCalls, ih, List.range_succ, List.map_append, List.map_cons,
      List.map_nil, link_section_index]
    rfl
/-- C9: the process-wide link-section index counter is strictly monotonic
— among any `n` successive calls, an earlier call returns a strictly
smaller value than a later one — so two successive `link_section_uninit`
calls produce distinct `.uninit.rticN` section names. -/
theorem link_section_counter_monotone (s n i j : Nat)
    (hij : i < j) (hjn : j < n) :
    (runCalls s n).1.getD i 0 < (runCalls s n).1.getD j 0 ∧
    ∀ (e1 e2 : Bool),
      (link_section_uninit e1 s).1 ≠
        (link_section_uninit e2 (link_section_uninit e1 s).2).1 := by
  constructor
  · have hget : ∀ k, k < n → (runCalls s n).1.getD k 0 = s + k := by
      intro k hk
      rw [runCalls_spec]
      simp only [List.getD_eq_getElem?_getD, List.getElem?_map,
        List.getElem?_range hk, Option.map_some']
      rfl
    rw [hget i (by omega), hget j (by omega)]
    omega
  · intro e1 e2
    have h1 : (link_section_uninit e1 s).1
        = some (".uninit.rtic" ++ natToString s) := by
      cases e1 <;> rfl
    have hs : (link_section_uninit e1 s).2 = s + 1 := by
      cases e1 <;> rfl
    have h2 : (link_section_uninit e2 (link_section_uninit e1 s).2).1
        = some (".uninit.rtic" ++ natToString (s + 1)) := by
      rw [hs]
      cases e2 <;> rfl
    rw [h1, h2]
    intro hcontra
    have heq := string_append_left_cancel
      ((Option.some.injEq _ _).mp hcontra)
    have := natToString_inj s (s + 1) heq
    omega

/-- Witness for C9 at concrete input: among three calls starting at
counter state 0, the first returned index is smaller than the third, and
two successive `link_section_uninit` calls yield different section
names. -/
theorem link_section_counter_monotone_witness :
    (runCalls 0 3).1.getD 0 0 < (runCalls 0 3).1.getD 2 0 ∧
    (link_section_uninit true 0).1 ≠
      (link_section_uninit false (link_section_uninit true 0).2).1 :=
  ⟨(link_section_counter_monotone 0 3 0 2 (by omega) (by omega)).1,
   (link_section_counter_monotone 0 3 0 2 (by omega) (by omega)).2
     true false⟩

/-- C4: for every software task with capacity `C` whose free queue is in
the analysis, the generated boot code contains the statement that enqueues
into that task's free queue exactly the indices `0, ..., C-1` — each index
below `C` exactly once, in strictly increasing order, and nothing else. -/
theorem free_queue_filled (app : App) (analysis : Analysis) (name : String)
    (t : SoftwareTask) (hmem : (name, t) ∈ app.software_tasks)
    (hkeys : (app.software_tasks.map Prod.fst).Nodup)
    (hfq : name ∈ analysis.free_queues) :
    Stmt.fillFreeQueue (fq_ident name) t.capacity ∈ codegen app analysis ∧
      (∀ i, i ∈ fillSequence t.capacity ↔ i < t.capacity) ∧
      (∀ i, i < t.capacity → (fillSequence t.capacity).count i = 1) ∧
      (fillSequence t.capacity).Pairwise (fun a b => a < b) := by
  refine ⟨?_, ?_, ?_, ?_⟩
  · simp only [codegen, List.mem_append]
    refine Or.inl (Or.inl (Or.inl (Or.inl (Or.inl (Or.inr ?_)))))
    refine List.mem_map.mpr ⟨name, hfq, ?_⟩
    rw [lookup_eq_of_mem app.software_tasks name t hkeys hmem]
    rfl
  · intro i
    exact List.mem_range
  · intro i hi
    exact List.count_eq_one_of_mem (List.nodup_range _)
      (List.mem_range.mpr hi)
  · exact List.pairwise_lt_range _

/-- Witness for C4 at concrete input: in `demoApp`, task `foo` has
capacity 3 and its fill statement is emitted; the fill sequence is
`[0, 1, 2]`. -/
theorem free_queue_filled_witness :
    Stmt.fillFreeQueue (fq_ident "foo") 3 ∈ codegen demoApp demoAnalysis ∧
      (∀ i, i ∈ fillSequence 3 ↔ i < 3) ∧
      (∀ i, i < 3 → (fillSequence 3).count i = 1) ∧
      (fillSequence 3).Pairwise (fun a b => a < b) :=
  free_queue_filled demoApp demoAnalysis "foo" { capacity := 3 }
    (by decide) (by decide) (by decide)

end RTIC
